import Mathlib

/-!
Shallow embedding of the RAG (retrieval-augmented generation) core of the
wellness-scribe-backend repository, together with theorems settling the
frozen claims about it.

Modelled services (TypeScript sources):
* EmbeddingService      (src/rag/services/embedding.service.ts):
  chunkDocument, calculateSimilarity.
* VectorSearchService   (vector-search.service.ts): calculateRelevance,
  combineAndRerank, the merge step of hybridSearch.
* CacheService          (src/rag/services/cache.service.ts): get / set over a
  TTL key-value store.
* RAGService            (src/rag/services/rag.service.ts): searchDocuments
  with its inline cache key, generateContextualResponse,
  calculateUserDocumentRelevance, saveConversationContext.
* MistralApiService     (mistral-api.service.ts): the active-generations
  registry of callMistralAPI and cancelGeneration.

Modelling conventions:
* JavaScript strings are `List Char` (`Str`); `toLowerCase` maps
  `Char.toLower`, `includes` is substring search, `trim` drops whitespace at
  both ends, `split` is modelled per call site (single-character separator or
  a run of sentence punctuation, matching the regexes used).
* JavaScript numbers are exact rationals. Where a computation can produce
  IEEE-754 NaN or infinities (division by zero), the result type models them
  explicitly (`JF`, `CosResult`); plain rational arithmetic is used where no
  such case can arise. Binary rounding of 64-bit floats is not modelled: the
  claims under study are structural or exact at the modelled inputs.
* Asynchronous I/O collaborators (Mongo queries, the embedding and completion
  HTTP providers, Redis) are passed in as explicit values: the document lists,
  provider replies and the cache contents are parameters or threaded state.
* `Date.now()` values are natural-number timestamps in milliseconds, passed
  explicitly.
-/

namespace WellnessScribe

/-- JavaScript strings, modelled as lists of characters. -/
abbrev Str := List Char

/-- Shorthand turning a Lean string literal into a modelled JS string. -/
def str (s : String) : Str := s.toList

/-- JS `String.prototype.toLowerCase` (ASCII-adequate for the texts involved). -/
def toLowerStr (s : Str) : Str := s.map Char.toLower

/-- JS `String.prototype.includes`: `needle` occurs as a contiguous substring. -/
def strIncludes (hay needle : Str) : Bool :=
  hay.tails.any (fun t => needle.isPrefixOf t)

/-- JS `String.prototype.trim`: drop whitespace from both ends. -/
def trimStr (s : Str) : Str :=
  ((s.dropWhile Char.isWhitespace).reverse.dropWhile Char.isWhitespace).reverse

/-- The sentence-terminal characters of the regex `[.!?]+` used by
`chunkDocument` and `extractContext`. -/
def isSentencePunct (c : Char) : Bool := c == '.' || c == '!' || c == '?'

/-- JS `String.prototype.split` on a regex matching a RUN of separator
characters (`/[.!?]+/`): consecutive separators act as one boundary, and a
leading or trailing separator contributes an empty segment, exactly as the
JS regex split does. -/
def splitOnRuns (p : Char → Bool) : Str → List Str
  | [] => [[]]
  | c :: rest =>
    let tail := splitOnRuns p rest
    if p c then
      match rest with
      | r :: _ => if p r then tail else [] :: tail
      | [] => [] :: tail
    else
      match tail with
      | [] => [[c]]
      | s :: ss => (c :: s) :: ss

/-- JS `String.prototype.split(sep)` for a one-character separator
(used as `split(' ')` by the relevance computations). -/
def splitOnChar (sep : Char) : Str → List Str
  | [] => [[]]
  | c :: rest =>
    if c = sep then [] :: splitOnChar sep rest
    else
      match splitOnChar sep rest with
      | [] => [[c]]
      | s :: ss => (c :: s) :: ss

/-- The sentence list built by `EmbeddingService.chunkDocument`:
`content.split(/[.!?]+/).filter(s => s.trim().length > 0)`. -/
def sentencesOf (content : Str) : List Str :=
  (splitOnRuns isSentencePunct content).filter (fun s => (trimStr s).length > 0)

/-- The accumulation loop of `chunkDocument` (embedding.service.ts, lines
102-119): greedily accumulate trimmed sentences joined by `'. '`, emitting the
current chunk whenever the next sentence would overflow `maxChunkSize`;
the final non-empty chunk is emitted after the loop. -/
def chunkLoop (maxChunkSize : Nat) : List Str → Str → List Str
  | [], currentChunk =>
    if currentChunk.length > 0 then [trimStr currentChunk] else []
  | sentence :: rest, currentChunk =>
    let trimmedSentence := trimStr sentence
    if currentChunk.length + trimmedSentence.length > maxChunkSize then
      (if currentChunk.length > 0 then [trimStr currentChunk] else []) ++
        chunkLoop maxChunkSize rest trimmedSentence
    else
      chunkLoop maxChunkSize rest
        (currentChunk ++ (if currentChunk.length > 0 then str ". " else []) ++
          trimmedSentence)

/-- Model of `EmbeddingService.chunkDocument(content, maxChunkSize = 1000,
overlapSize = 200)`. The `overlapSize` parameter is accepted and unused,
as in the source. -/
def chunkDocument (content : Str) (maxChunkSize : Nat := 1000)
    (overlapSize : Nat := 200) : List Str :=
  let _ := overlapSize
  chunkLoop maxChunkSize (sentencesOf content) []

/-! ### Cosine similarity (EmbeddingService.calculateSimilarity) -/
/-- Model of `embedding1.reduce((sum, val, i) => sum + val * embedding2[i], 0)`:
the index-aligned dot product (lengths are equal at every use, enforced by
the dimension check preceding it). -/
def dotProduct (e1 e2 : List ℚ) : ℚ :=
  (e1.zip e2).foldl (fun sum p => sum + p.1 * p.2) 0

/-- Model of `e.reduce((sum, val) => sum + val * val, 0)`: the squared magnitude. -/
def sumSquares (e : List ℚ) : ℚ :=
  e.foldl (fun sum v => sum + v * v) 0

/-- The IEEE-754 value of `dotProduct / (magnitude1 * magnitude2)`, kept
symbolic because the magnitudes are square roots:
* `nan` — the division is `0/0` (both magnitudes multiply to zero);
* `inf pos` — a nonzero numerator divided by zero (unreachable for genuine
  vectors, kept for faithfulness to IEEE division);
* `val dot s1 s2` — the finite value `dot / (sqrt s1 * sqrt s2)` with
  `s1 * s2 ≠ 0`, represented by its exact rational ingredients. -/
inductive CosResult where
  | nan : CosResult
  | inf : Bool → CosResult
  | val : ℚ → ℚ → ℚ → CosResult
deriving DecidableEq, Repr

/-- Model of `EmbeddingService.calculateSimilarity(embedding1, embedding2)`
(embedding.service.ts, lines 124-141): throws on a dimension mismatch, else
returns `dot / (sqrt(s1) * sqrt(s2))` with NO guard against zero magnitudes,
so an all-zero vector drives the IEEE division to `0/0 = NaN`. -/
def calculateSimilarity (e1 e2 : List ℚ) : Except String CosResult :=
  if e1.length ≠ e2.length then .error "Embedding dimensions must match"
  else
    let dot := dotProduct e1 e2
    let s1 := sumSquares e1
    let s2 := sumSquares e2
    if s1 * s2 = 0 then
      if dot = 0 then .ok .nan else .ok (.inf (decide (0 < dot)))
    else .ok (.val dot s1 s2)

/-! ### A NaN-aware model of JS numbers for the relevance scores -/
/-- A JS (IEEE-754 binary64) number as used by the relevance computations:
NaN, a signed infinity, or a finite value (exact rational; binary rounding is
not modelled). -/
inductive JF where
  | nan : JF
  | inf : Bool → JF
  | fin : ℚ → JF
deriving DecidableEq, Repr

/-- IEEE addition on `JF`. -/
def jfAdd : JF → JF → JF
  | .nan, _ => .nan
  | _, .nan => .nan
  | .inf p, .inf q => if p = q then .inf p else .nan
  | .inf p, .fin _ => .inf p
  | .fin _, .inf q => .inf q
  | .fin a, .fin b => .fin (a + b)

/-- IEEE multiplication on `JF`. -/
def jfMul : JF → JF → JF
  | .nan, _ => .nan
  | _, .nan => .nan
  | .inf p, .inf q => .inf (p == q)
  | .inf p, .fin b => if b = 0 then .nan else .inf (p == decide (0 < b))
  | .fin a, .inf q => if a = 0 then .nan else .inf (q == decide (0 < a))
  | .fin a, .fin b => .fin (a * b)

/-- IEEE division on `JF` (denominator zeroes are the positive zero produced
by the integer lengths at the call sites). -/
def jfDiv : JF → JF → JF
  | .nan, _ => .nan
  | _, .nan => .nan
  | .inf _, .inf _ => .nan
  | .inf p, .fin b => .inf (p == decide (0 ≤ b))
  | .fin _, .inf _ => .fin 0
  | .fin a, .fin b =>
    if b = 0 then (if a = 0 then .nan else .inf (decide (0 < a)))
    else .fin (a / b)

/-- JS `Math.min` on `JF` (NaN-propagating). -/
def jfMin : JF → JF → JF
  | .nan, _ => .nan
  | _, .nan => .nan
  | .fin a, .fin b => .fin (min a b)
  | .inf true, x => x
  | x, .inf true => x
  | .inf false, _ => .inf false
  | _, .inf false => .inf false

/-! ### Documents and lexical relevance scores -/
/-- The fields of a `RAGWellnessDocument` that the modelled operations read.
`mongoId` stands for the Mongoose `_id` (stringified); the remaining schema
fields (category, evidence level, timestamps, tags, usage counter, metadata,
embedding) are carried opaquely by the code paths under study and are not
inspected by them. -/
structure RAGDoc where
  mongoId : Option Str
  id : Str
  title : Str
  content : Str
  keywords : List Str
  source : Str
deriving DecidableEq, Repr

/-- The `context` sub-object of a ConversationContext (schema lines 43-63);
an absent optional array is modelled as the empty list, which the guards
treat identically (both are falsy for the `?.length` checks). -/
structure UserCtx where
  healthConditions : List Str := []
  medications : List Str := []
  wellnessGoals : List Str := []
  recentTopics : List Str := []
  communicationStyle : Str := str "professional"
deriving DecidableEq, Repr

/-- Model of `VectorSearchService.calculateRelevance(doc, query)` (part_007, lines
203-230): title substring hit adds 0.3, keyword-match fraction times 0.4
(dividing by `doc.keywords.length` WITHOUT a zero guard), content word
overlap fraction times 0.3, capped by `Math.min(·, 1.0)`. -/
def calculateRelevance (doc : RAGDoc) (query : Str) : JF :=
  let queryLower := toLowerStr query
  let r1 : JF :=
    if strIncludes (toLowerStr doc.title) queryLower
    then jfAdd (.fin 0) (.fin (3/10)) else .fin 0
  let keywordMatches :=
    (doc.keywords.filter (fun kw => strIncludes (toLowerStr kw) queryLower)).length
  let r2 := jfAdd r1
    (jfMul (jfDiv (.fin (keywordMatches : ℚ)) (.fin (doc.keywords.length : ℚ)))
      (.fin (4/10)))
  let contentWords := splitOnChar ' ' (toLowerStr doc.content)
  let queryWords := splitOnChar ' ' (toLowerStr query)
  let contentMatches :=
    (queryWords.filter (fun w => contentWords.any (fun cw => strIncludes cw w))).length
  let r3 := jfAdd r2
    (jfMul (jfDiv (.fin (contentMatches : ℚ)) (.fin (queryWords.length : ℚ)))
      (.fin (3/10)))
  jfMin r3 (.fin 1)

/-- Model of `RAGService.calculateUserDocumentRelevance(doc, query, conversationContext)`
(rag.service.ts, lines 373-412): the same three lexical terms as
`calculateRelevance`, plus — when the user declared health conditions — the
fraction of conditions literally appearing in the content, times 0.2; capped
by `Math.min(·, 1.0)`. -/
def calculateUserDocumentRelevance (doc : RAGDoc) (query : Str)
    (userContext : UserCtx) : JF :=
  let queryLower := toLowerStr query
  let r1 : JF :=
    if strIncludes (toLowerStr doc.title) queryLower
    then jfAdd (.fin 0) (.fin (3/10)) else .fin 0
  let keywordMatches :=
    (doc.keywords.filter (fun kw => strIncludes (toLowerStr kw) queryLower)).length
  let r2 := jfAdd r1
    (jfMul (jfDiv (.fin (keywordMatches : ℚ)) (.fin (doc.keywords.length : ℚ)))
      (.fin (4/10)))
  let contentWords := splitOnChar ' ' (toLowerStr doc.content)
  let queryWords := splitOnChar ' ' (toLowerStr query)
  let contentMatches :=
    (queryWords.filter (fun w => contentWords.any (fun cw => strIncludes cw w))).length
  let r3 := jfAdd r2
    (jfMul (jfDiv (.fin (contentMatches : ℚ)) (.fin (queryWords.length : ℚ)))
      (.fin (3/10)))
  let r4 :=
    if userContext.healthConditions ≠ [] then
      let conditionMatches :=
        (userContext.healthConditions.filter
          (fun cond => strIncludes (toLowerStr doc.content) (toLowerStr cond))).length
      jfAdd r3
        (jfMul (jfDiv (.fin (conditionMatches : ℚ))
            (.fin (userContext.healthConditions.length : ℚ)))
          (.fin (2/10)))
    else r3
  jfMin r4 (.fin 1)

/-- A JS number that is finite and lies in `[0, 1]`. -/
def jfInUnit : JF → Prop
  | .fin q => 0 ≤ q ∧ q ≤ 1
  | _ => False

/-! ### Search results, the response cache, and RAGService.searchDocuments -/
/-- A transient search result (rag.types.ts `SearchResult`). Scores are
modelled as exact rationals (the generic finite JS-number case; the NaN
behaviour of the relevance computation is studied separately on `JF`). -/
structure SearchResult where
  document : RAGDoc
  score : ℚ
  relevance : ℚ
  context : Str
deriving DecidableEq, Repr

/-- The optional filter object of a `RAGQuery` (rag.types.ts). -/
structure RAGQueryFilters where
  categories : Option (List Str) := none
  evidenceLevels : Option (List Str) := none
  sources : Option (List Str) := none
deriving DecidableEq, Repr

/-- A `RAGQuery` (rag.types.ts): the inputs of `searchDocuments`. -/
structure RAGQuery where
  query : Str
  userId : Option Str := none
  context : Option UserCtx := none
  filters : Option RAGQueryFilters := none
  limit : Option Nat := none
  threshold : Option ℚ := none
deriving DecidableEq, Repr

/-- A `RAGResponse` (rag.types.ts); the nested `metadata` object is
flattened into the three fields `vectorSearchTime`, `rerankingTime`,
`cacheHit`. -/
structure RAGResponse where
  query : Str
  response : Str
  results : List SearchResult
  totalResults : Nat
  processingTime : Nat
  model : Str
  sources : List Str
  confidence : ℚ
  vectorSearchTime : ℚ
  rerankingTime : ℚ
  cacheHit : Bool
deriving DecidableEq, Repr

/-- Lookup in an insertion-ordered string-keyed map (JS `Map` / the redis
keyspace, restricted to the operations the services perform). -/
def alLookup {β : Type} : List (Str × β) → Str → Option β
  | [], _ => none
  | p :: rest, k => if p.1 = k then some p.2 else alLookup rest k

/-- Model of `Map.prototype.set` / redis `SETEX`: replace the value in place when the
key exists (keeping its position), else append a new entry. -/
def alSet {β : Type} (m : List (Str × β)) (k : Str) (v : β) : List (Str × β) :=
  if (alLookup m k).isSome then
    m.map (fun p => if p.1 = k then (p.1, v) else p)
  else m ++ [(k, v)]

/-- redis `DEL`: drop every entry stored under the key. -/
def alErase {β : Type} (m : List (Str × β)) (k : Str) : List (Str × β) :=
  m.filter (fun p => !(decide (p.1 = k)))

/-- A cached retrieval response (`CacheEntry` of rag.types.ts): timestamps in
milliseconds, TTL in seconds, as in cache.service.ts. -/
structure CacheEntry where
  value : RAGResponse
  timestamp : Nat
  ttl : Nat
deriving DecidableEq, Repr

/-- The cache keyspace. -/
abbrev CacheMap := List (Str × CacheEntry)

/-- Model of `CacheService.get(key)` at wall-clock `now` (cache.service.ts, lines
27-70): a stored entry is returned iff `now − timestamp < ttl * 1000`;
an expired entry is deleted on access; entries are well-formed by
construction, so the JSON-shape and timestamp validity checks are vacuous. -/
def cacheServiceGet (now : Nat) (st : CacheMap) (key : Str) :
    Option RAGResponse × CacheMap :=
  match alLookup st key with
  | some entry =>
    if now - entry.timestamp < entry.ttl * 1000 then (some entry.value, st)
    else (none, alErase st key)
  | none => (none, st)

/-- Model of `CacheService.set(key, value, ttl)` at wall-clock `now`. -/
def cacheServiceSet (now : Nat) (st : CacheMap) (key : Str)
    (value : RAGResponse) (ttl : Nat) : CacheMap :=
  alSet st key ⟨value, now, ttl⟩

/-- Model of `this.embeddingService.getConfig().embeddingModel.name`. -/
def embeddingModelName : Str := str "mistral-embed"

/-- The inline cache key of `RAGService.searchDocuments` (rag.service.ts,
line 44): the template literal
`` `search:${query.query}:${query.userId}:${query.limit}` ``, where an
absent field interpolates as the string `"undefined"`. It reads neither
`query.filters` nor `CacheService.generateCacheKey` (which would hash the
filters in). -/
def searchCacheKey (q : RAGQuery) : Str :=
  str "search:" ++ q.query ++ str ":" ++
    (match q.userId with
     | some u => u
     | none => str "undefined") ++ str ":" ++
    (match q.limit with
     | some n => (Nat.repr n).toList
     | none => str "undefined")

/-- Model of `RAGService.searchDocuments(query)` (rag.service.ts, lines 39-104) at
wall-clock `now`, with `elapsed` the measured processing time and `hybrid`
the outcome of `vectorSearchService.hybridSearch` (`some results` when the
search completed — hybridSearch catches its own errors and yields `[]` —
and `none` when an exception reached the outer catch block). Returns the
response together with the cache state after the call. -/
def searchDocuments (now elapsed : Nat) (hybrid : Option (List SearchResult))
    (st : CacheMap) (q : RAGQuery) : RAGResponse × CacheMap :=
  let cacheKey := searchCacheKey q
  let gotten := cacheServiceGet now st cacheKey
  match gotten.1 with
  | some cached => (cached, gotten.2)
  | none =>
    match hybrid with
    | some results =>
      let response : RAGResponse :=
        { query := q.query
          response := []
          results := results
          totalResults := results.length
          processingTime := elapsed
          model := embeddingModelName
          sources := (results.map (fun r => r.document.source)).filter
            (fun s => !s.isEmpty)
          confidence := 8/10
          vectorSearchTime := (elapsed : ℚ) * (7/10)
          rerankingTime := (elapsed : ℚ) * (3/10)
          cacheHit := false }
      (response, cacheServiceSet now gotten.2 cacheKey response 3600)
    | none =>
      ({ query := q.query
         response := []
         results := []
         totalResults := 0
         processingTime := elapsed
         model := str "fallback"
         sources := []
         confidence := 0
         vectorSearchTime := 0
         rerankingTime := 0
         cacheHit := false }, gotten.2)

/-- A concrete query used by the closed evaluations below. -/
def sampleQuery : RAGQuery :=
  { query := str "pain", userId := some (str "u1"), limit := some 5 }

/-! ### Conversation contexts and RAGService.generateContextualResponse -/
/-- A message of a ConversationContext (conversation-context.schema.ts,
lines 7-30); the optional per-message metadata is not read by the modelled
paths. -/
structure ConvMessage where
  role : Str
  content : Str
  timestamp : Nat
deriving DecidableEq, Repr

/-- A ConversationContext document (conversation-context.schema.ts, lines
32-76): schema defaults are `messages = []`, `context` with communication
style `"professional"`, `messageCount = 0`. -/
structure ConvContext where
  userId : Str
  sessionId : Str
  messages : List ConvMessage
  context : UserCtx
  lastUpdated : Nat
  messageCount : Nat
deriving DecidableEq, Repr

/-- The conversation-context collection. -/
abbrev ContextStore := List ConvContext

/-- Model of `conversationContextModel.findOne({ userId, sessionId })`. -/
def findContext (store : ContextStore) (userId sessionId : Str) :
    Option ConvContext :=
  store.find? (fun c => decide (c.userId = userId ∧ c.sessionId = sessionId))

/-- Model of `RAGService.getOrCreateConversationContext` (rag.service.ts, lines
551-572): return the stored context, or a fresh unsaved one built from the
schema defaults. -/
def getOrCreateConversationContext (now : Nat) (store : ContextStore)
    (userId sessionId : Str) : ConvContext :=
  match findContext store userId sessionId with
  | some c => c
  | none =>
    { userId := userId, sessionId := sessionId, messages := [],
      context := {}, lastUpdated := now, messageCount := 0 }

/-- Model of `RAGService.saveConversationContext` (rag.service.ts, lines 574-579):
set `lastUpdated` and persist the document — `messageCount` is NOT touched. -/
def saveConversationContext (now : Nat) (store : ContextStore)
    (c : ConvContext) : ContextStore :=
  let saved := { c with lastUpdated := now }
  if (findContext store c.userId c.sessionId).isSome then
    store.map (fun x =>
      if x.userId = c.userId ∧ x.sessionId = c.sessionId then saved else x)
  else store ++ [saved]

/-- The fixed stop-keyword set of `generateContextualResponse`. -/
def stopKeywords : List Str :=
  [str "stop", str "end", str "quit", str "exit", str "terminate", str "halt"]

/-- Model of `stopKeywords.some(k => query.toLowerCase().includes(k))`. -/
def isStopSignal (query : Str) : Bool :=
  stopKeywords.any (fun kw => strIncludes (toLowerStr query) kw)

/-- The slice of a `MistralResponse` read by `generateContextualResponse`:
`choices[i].message.content` (an absent/empty content string is falsy and
replaced by the apology text). The unread envelope fields (id, model, usage,
finish reasons) are omitted. -/
structure MistralResp where
  choices : List Str
deriving DecidableEq, Repr

/-- The canned acknowledgement returned on a stop signal. -/
def stopAckMessage : Str :=
  str "I understand you want to stop. I\x27ll respect that and won\x27t continue this conversation. Feel free to start a new chat when you\x27re ready."

/-- The canned reply when the stored conversation was already stopped. -/
def conversationEndedMessage : Str :=
  str "This conversation has been stopped. I won\x27t continue responding. Please start a new chat if you need assistance."

/-- The canned fallback on a provider failure. -/
def technicalIssuesMessage : Str :=
  str "I\x27m having technical issues right now. For immediate concerns, please consult with a healthcare professional."

/-- The fallback when a returned choice has no content. -/
def apologyMessage : Str :=
  str "I apologize, but I cannot generate a response at this time."

/-- The observable outcome of one `generateContextualResponse` call: the
returned text, the conversation-context store afterwards, and how many times
the completion provider was invoked. -/
structure GenOutcome where
  text : Str
  store : ContextStore
  providerCalls : Nat
deriving DecidableEq, Repr

/-- Model of `RAGService.generateContextualResponse(query, userId, conversationId,
generationId)` (rag.service.ts, lines 106-191) at wall-clock `now`.
Document retrieval and prompt assembly feed the provider call and do not
affect the store; the provider reply is the oracle `provider` (`none` for a
null reply or a thrown/cancelled call — every failure is caught and mapped
to the fixed fallback text with no save). -/
def generateContextualResponse (now : Nat) (store : ContextStore)
    (query userId : Str) (conversationId : Option Str)
    (provider : Option MistralResp) : GenOutcome :=
  if isStopSignal query then
    { text := stopAckMessage, store := store, providerCalls := 0 }
  else
    let sessionId :=
      match conversationId with
      | some cid => cid
      | none => str "session_" ++ (Nat.repr now).toList
    let ctx0 := getOrCreateConversationContext now store userId sessionId
    let alreadyStopped :=
      match ctx0.messages.getLast? with
      | some m => strIncludes (toLowerStr m.content) (str "stop")
      | none => false
    if alreadyStopped then
      { text := conversationEndedMessage, store := store, providerCalls := 0 }
    else
      let ctx1 := { ctx0 with
        messages := ctx0.messages ++ [(⟨str "user", query, now⟩ : ConvMessage)] }
      match provider with
      | some resp =>
        match resp.choices.head? with
        | some content =>
          let aiResponse := if content ≠ [] then content else apologyMessage
          let ctx2 := { ctx1 with
            messages := ctx1.messages ++
              [(⟨str "assistant", aiResponse, now⟩ : ConvMessage)] }
          { text := aiResponse,
            store := saveConversationContext now store ctx2,
            providerCalls := 1 }
        | none =>
          { text := technicalIssuesMessage, store := store, providerCalls := 1 }
      | none =>
        { text := technicalIssuesMessage, store := store, providerCalls := 1 }

/-! ### MistralApiService: the active-generations registry and cancellation -/
/-- The keys of the `activeGenerations` map (generation id → AbortController);
the controller itself is observable only through the abort it triggers,
which is modelled by the provider outcome below. -/
abbrev GenRegistry := List Str

/-- The registration phase of `callMistralAPI` (part_009, lines 39-44):
`activeGenerations.set(generationId, abortController)` when a generation id
was supplied (a `Map.set` keeps the key set duplicate-free). -/
def registerGeneration (reg : GenRegistry) (gid : Option Str) : GenRegistry :=
  match gid with
  | some g => if g ∈ reg then reg else reg ++ [g]
  | none => reg

/-- Model of `activeGenerations.delete(g)`. -/
def removeGeneration (reg : GenRegistry) (g : Str) : GenRegistry :=
  reg.filter (fun x => !(decide (x = g)))

/-- Model of `MistralApiService.cancelGeneration(generationId)` (part_009, lines
133-143): abort and deregister when an active controller exists (returning
`true`), else report `false`. The `abort()` side effect reaches the pending
HTTP call as the `aborted` outcome below. -/
def cancelGeneration (reg : GenRegistry) (g : Str) : Bool × GenRegistry :=
  if g ∈ reg then (true, removeGeneration reg g) else (false, reg)

/-- How the awaited HTTP call of `callMistralAPI` resolves: a provider
response, a thrown HTTP/network error, or rejection with an abort error
because the registered controller was aborted mid-flight. -/
inductive ProviderOutcome where
  | success : MistralResp → ProviderOutcome
  | httpError : ProviderOutcome
  | aborted : ProviderOutcome
deriving DecidableEq, Repr

/-- What `callMistralAPI` resolves to for its caller: a response, `null`
(provider failure, swallowed), or the distinct rethrown
`Error('Generation cancelled')`. -/
inductive ApiResult where
  | response : MistralResp → ApiResult
  | nullResult : ApiResult
  | cancelled : ApiResult
deriving DecidableEq, Repr

/-- The completion phase of `callMistralAPI` (part_009, lines 68-113): on any
resolution the stored abort controller is deleted (success path lines 77-80,
catch path lines 93-95); an abort error is rethrown as the distinct
`Generation cancelled` error (lines 98-101); a response without choices or
an HTTP error yields `null`. -/
def finishMistralCall (reg : GenRegistry) (gid : Option Str)
    (outcome : ProviderOutcome) : ApiResult × GenRegistry :=
  let cleaned :=
    match gid with
    | some g => removeGeneration reg g
    | none => reg
  match outcome with
  | .success r =>
    if r.choices.length > 0 then (.response r, cleaned)
    else (.nullResult, cleaned)
  | .httpError => (.nullResult, cleaned)
  | .aborted => (.cancelled, cleaned)

/-! ### VectorSearchService: combineAndRerank and the hybrid-search merge -/
/-- The map key of `combineAndRerank` (part_007, lines 257-260 and 266-269):
`result.document.id || result.document._id?.toString() ||
` `` `unknown-${Date.now()}` ``; JS `||` skips the empty string. -/
def docKey (now : Nat) (r : SearchResult) : Str :=
  if r.document.id ≠ [] then r.document.id
  else
    match r.document.mongoId with
    | some m => if m ≠ [] then m else str "unknown-" ++ (Nat.repr now).toList
    | none => str "unknown-" ++ (Nat.repr now).toList

/-- The ranking score `score * 0.7 + relevance * 0.3`. -/
def combinedScore (r : SearchResult) : ℚ :=
  r.score * (7/10) + r.relevance * (3/10)

/-- The sort comparator `(a, b) => combinedScoreB - combinedScoreA` as the
total boolean order it realises: `a` precedes `b` iff the comparator is
nonpositive, i.e. `combinedScore b ≤ combinedScore a`. -/
def rerankLE (a b : SearchResult) : Bool :=
  decide (combinedScore b ≤ combinedScore a)

/-- The both-lists merge of `combineAndRerank` (part_007, lines 271-275):
the vector entry with its score averaged with the text score and its
relevance maxed with the text relevance. -/
def mergeScores (existing r : SearchResult) : SearchResult :=
  { existing with
    score := (existing.score + r.score) / 2
    relevance := max existing.relevance r.relevance }

/-- The first loop of `combineAndRerank`: `vectorResults.forEach(result =>
combined.set(docId, result))`. -/
def vectorPhase (now : Nat) (vec : List SearchResult) :
    List (Str × SearchResult) :=
  vec.foldl (fun m r => alSet m (docKey now r) r) []

/-- The second loop of `combineAndRerank`: each text result either merges
into the existing entry of its key (scores averaged, relevance maxed,
position kept) or is appended. -/
def textPhase (now : Nat) (m : List (Str × SearchResult))
    (text : List SearchResult) : List (Str × SearchResult) :=
  text.foldl (fun m r =>
    let k := docKey now r
    match alLookup m k with
    | some existing => alSet m k (mergeScores existing r)
    | none => alSet m k r) m

/-- Model of `VectorSearchService.combineAndRerank(vectorResults, textResults)`
(part_007, lines 249-286): populate the insertion-ordered map from the
vector list, fold the text list in, then sort the values by descending
combined score (`Array.prototype.sort` is stable; `List.mergeSort` realises
the same ordering contract). -/
def combineAndRerank (now : Nat) (vec text : List SearchResult) :
    List SearchResult :=
  ((textPhase now (vectorPhase now vec) text).map (fun p => p.2)).mergeSort
    rerankLE

/-- The merge-and-truncate step of `VectorSearchService.hybridSearch`
(part_007, lines 135-139): `combineAndRerank(...).slice(0, limit)`. The two
input lists are the outcomes of the vector search and the text search. -/
def hybridSearchMerge (now : Nat) (vec text : List SearchResult)
    (limit : Nat) : List SearchResult :=
  (combineAndRerank now vec text).take limit

/-- Lookup by document key (the unique entry when keys are distinct). -/
def lookupByKey (now : Nat) (l : List SearchResult) (k : Str) :
    Option SearchResult :=
  l.find? (fun r => decide (docKey now r = k))

/-- The keys of an association map. -/
def alKeys {β : Type} (m : List (Str × β)) : List Str := m.map (fun p => p.1)

/-- The shared document of the hybrid-merge witness scenario. -/
def mergeWitnessDoc : RAGDoc :=
  ⟨none, str "d1", str "Hydration", str "Drink water daily",
    [str "water"], str "who"⟩

/-- The vector-search entry of the witness scenario (similarity 0.9). -/
def vecResultA : SearchResult := ⟨mergeWitnessDoc, 9/10, 1/2, str "ctx"⟩

/-- The keyword-search entry of the witness scenario (score 0.6). -/
def textResultA : SearchResult := ⟨mergeWitnessDoc, 6/10, 1/2, str "ctx"⟩

/-! ### Lemmas and claim theorems -/

lemma trimStr_length_le (s : Str) : (trimStr s).length ≤ s.length := by
  calc (trimStr s).length
      = ((s.dropWhile Char.isWhitespace).reverse.dropWhile
          Char.isWhitespace).length := by
        simp [trimStr]
    _ ≤ (s.dropWhile Char.isWhitespace).reverse.length :=
        (List.dropWhile_sublist _).length_le
    _ = (s.dropWhile Char.isWhitespace).length := by simp
    _ ≤ s.length := (List.dropWhile_sublist _).length_le

lemma chunkLoop_bound (maxChunkSize : Nat) :
    ∀ (sentences : List Str) (current : Str),
      (∀ s ∈ sentences, (trimStr s).length ≤ maxChunkSize) →
      current.length ≤ maxChunkSize + 2 →
      ∀ ch ∈ chunkLoop maxChunkSize sentences current,
        ch.length ≤ maxChunkSize + 2 := by
  intro sentences
  induction sentences with
  | nil =>
    intro current _ hcur ch hch
    simp only [chunkLoop] at hch
    by_cases h : current.length > 0
    · simp [h] at hch
      subst hch
      exact le_trans (trimStr_length_le current) hcur
    · simp [h] at hch
  | cons s rest ih =>
    intro current hsen hcur ch hch
    have hs : (trimStr s).length ≤ maxChunkSize := hsen s (by simp)
    have hrest : ∀ t ∈ rest, (trimStr t).length ≤ maxChunkSize :=
      fun t ht => hsen t (by simp [ht])
    simp only [chunkLoop] at hch
    by_cases hover : current.length + (trimStr s).length > maxChunkSize
    · simp only [hover, if_true] at hch
      rcases List.mem_append.mp hch with hl | hr
      · by_cases hpos : current.length > 0
        · simp [hpos] at hl
          subst hl
          exact le_trans (trimStr_length_le current) hcur
        · simp [hpos] at hl
      · exact ih (trimStr s) hrest
          (le_trans hs (by omega)) ch hr
    · simp only [hover, if_false] at hch
      apply ih _ hrest _ ch hch
      push_neg at hover
      have hj : (if current.length > 0 then str ". " else []).length ≤ 2 := by
        split <;> decide
      simp only [List.length_append]
      omega

/-- C9 counterexample: with `maxChunkSize = 5`, the input `"ab. cd."` has two
sentences of trimmed length 2 ≤ 5 each, yet the single emitted chunk
`"ab. cd"` has length 6 > 5: the overflow guard compares
`currentChunk.length + trimmedSentence.length` against `maxChunkSize` but the
appended joiner `'. '` adds two further characters it never counts. -/
theorem chunkDocument_size_bound_cex :
    (∀ s ∈ sentencesOf (str "ab. cd."), (trimStr s).length ≤ 5) ∧
    ¬ (∀ ch ∈ chunkDocument (str "ab. cd.") 5 200, ch.length ≤ 5) := by
  constructor
  · decide
  · intro h
    have := h (str "ab. cd") (by decide)
    simp [str] at this

/-- C9 (amended): for input whose individual (trimmed) sentences are each at
most `maxChunkSize` characters, every chunk emitted by `chunkDocument` is at
most `maxChunkSize + 2` characters: the guard does not count the
two-character `'. '` joiner, so a chunk can overshoot the bound by exactly
that much (a single oversized sentence is still emitted as-is). -/
theorem chunkDocument_size_bound (content : Str) (maxChunkSize overlapSize : Nat)
    (hsen : ∀ s ∈ sentencesOf content, (trimStr s).length ≤ maxChunkSize) :
    ∀ ch ∈ chunkDocument content maxChunkSize overlapSize,
      ch.length ≤ maxChunkSize + 2 := by
  intro ch hch
  exact chunkLoop_bound maxChunkSize (sentencesOf content) [] hsen
    (by simp) ch hch

/-- C9 witness: the amended bound evaluated on the counterexample input:
the one chunk of `chunkDocument "ab. cd." 5 200` has length ≤ 7. -/
theorem chunkDocument_size_bound_witness : (str "ab. cd").length ≤ 5 + 2 :=
  chunkDocument_size_bound (str "ab. cd.") 5 200 (by decide)
    (str "ab. cd") (by decide)

lemma sumSquares_zero_of_all_zero (e : List ℚ) (h : ∀ x ∈ e, x = 0) :
    sumSquares e = 0 := by
  suffices hgen : ∀ a : ℚ, e.foldl (fun sum v => sum + v * v) a = a by
    simpa [sumSquares] using hgen 0
  induction e with
  | nil => intro a; simp
  | cons x rest ih =>
    intro a
    have hx : x = 0 := h x (by simp)
    have hrest : ∀ y ∈ rest, y = 0 := fun y hy => h y (by simp [hy])
    simp only [List.foldl_cons, hx]
    simpa using ih hrest (a + 0 * 0)

lemma dotProduct_zero_of_left_zero (e1 e2 : List ℚ) (h : ∀ x ∈ e1, x = 0) :
    dotProduct e1 e2 = 0 := by
  suffices hgen : ∀ (e2 : List ℚ) (a : ℚ),
      (e1.zip e2).foldl (fun sum p => sum + p.1 * p.2) a = a by
    simpa [dotProduct] using hgen e2 0
  induction e1 with
  | nil => intro e2 a; simp
  | cons x rest ih =>
    intro e2 a
    cases e2 with
    | nil => simp
    | cons y rest2 =>
      have hx : x = 0 := h x (by simp)
      have hrest : ∀ z ∈ rest, z = 0 := fun z hz => h z (by simp [hz])
      simp only [List.zip_cons_cons, List.foldl_cons, hx]
      simpa using ih hrest rest2 (a + 0 * y)

/-- C2: for every vector `B` and all-zero vector `Z` of the same length,
`calculateSimilarity(Z, B)` evaluates the unguarded formula
`dot / (magnitude1 * magnitude2)` at a zero denominator and zero numerator,
yielding IEEE NaN — not the value 0 the specification mandates. -/
theorem calculateSimilarity_zero_vector_nan (B Z : List ℚ)
    (hlen : Z.length = B.length) (hzero : ∀ x ∈ Z, x = 0) :
    calculateSimilarity Z B = .ok .nan := by
  have hs1 : sumSquares Z = 0 := sumSquares_zero_of_all_zero Z hzero
  have hdot : dotProduct Z B = 0 := dotProduct_zero_of_left_zero Z B hzero
  simp [calculateSimilarity, hlen, hs1, hdot]

/-- C2 witness: the concrete failing input `Z = [0]`, `B = [1]`. -/
theorem calculateSimilarity_zero_vector_nan_witness :
    calculateSimilarity [(0 : ℚ)] [(1 : ℚ)] = .ok .nan :=
  calculateSimilarity_zero_vector_nan [(1 : ℚ)] [(0 : ℚ)] (by decide)
    (by decide)

lemma jfAdd_fin (a b : ℚ) : jfAdd (.fin a) (.fin b) = .fin (a + b) := rfl

lemma jfAdd_nan_right (x : JF) : jfAdd x .nan = .nan := by
  cases x <;> rfl

lemma fraction_term_fin (m n : ℕ) (hn : n ≠ 0) (c : ℚ) (hc : 0 ≤ c) :
    jfMul (jfDiv (.fin (m : ℚ)) (.fin (n : ℚ))) (.fin c) =
      .fin ((m : ℚ) / (n : ℚ) * c) ∧ 0 ≤ (m : ℚ) / (n : ℚ) * c := by
  have hnq : (n : ℚ) ≠ 0 := Nat.cast_ne_zero.mpr hn
  constructor
  · simp [jfDiv, jfMul, hnq]
  · exact mul_nonneg (div_nonneg (by positivity) (by positivity)) hc

lemma jfAdd_nan_left (x : JF) : jfAdd .nan x = .nan := by
  cases x <;> rfl

lemma jfMin_nan_left (x : JF) : jfMin .nan x = .nan := by
  match x with
  | .nan => rfl
  | .inf true => rfl
  | .inf false => rfl
  | .fin q => rfl

lemma jfMin_one_inUnit (s : ℚ) (hs : 0 ≤ s) :
    jfInUnit (jfMin (.fin s) (.fin 1)) := by
  simp only [jfMin, jfInUnit]
  exact ⟨le_min hs (by norm_num), min_le_right _ _⟩

lemma splitOnChar_ne_nil (sep : Char) (s : Str) : splitOnChar sep s ≠ [] := by
  cases s with
  | nil => simp [splitOnChar]
  | cons c rest =>
    simp only [splitOnChar]
    split
    · simp
    · split <;> simp

/-- C10: the relevance computed by `calculateRelevance` (and by
`calculateUserDocumentRelevance`) is a finite number in `[0, 1]` whenever the
document has at least one keyword; with an empty keyword list the unguarded
division `keywordMatches / doc.keywords.length` is `0/0 = NaN`, which
propagates through the additions and `Math.min` to make the whole score NaN. -/
theorem relevance_in_unit_interval (doc : RAGDoc) (query : Str)
    (userContext : UserCtx) :
    (doc.keywords ≠ [] →
      jfInUnit (calculateRelevance doc query) ∧
      jfInUnit (calculateUserDocumentRelevance doc query userContext)) ∧
    (doc.keywords = [] →
      calculateRelevance doc query = .nan ∧
      calculateUserDocumentRelevance doc query userContext = .nan) := by
  constructor
  · intro hk
    have hklen : doc.keywords.length ≠ 0 := by
      simpa [List.length_eq_zero] using hk
    have hqlen : (splitOnChar ' ' (toLowerStr query)).length ≠ 0 := by
      simpa [List.length_eq_zero] using splitOnChar_ne_nil ' ' (toLowerStr query)
    obtain ⟨hkeq, hknn⟩ := fraction_term_fin
      (doc.keywords.filter
        (fun kw => strIncludes (toLowerStr kw) (toLowerStr query))).length
      doc.keywords.length hklen (4/10) (by norm_num)
    obtain ⟨hceq, hcnn⟩ := fraction_term_fin
      ((splitOnChar ' ' (toLowerStr query)).filter
        (fun w => (splitOnChar ' ' (toLowerStr doc.content)).any
          (fun cw => strIncludes cw w))).length
      (splitOnChar ' ' (toLowerStr query)).length hqlen (3/10) (by norm_num)
    constructor
    · simp only [calculateRelevance]
      rw [hkeq, hceq]
      by_cases ht : strIncludes (toLowerStr doc.title) (toLowerStr query) = true
      · rw [if_pos ht]
        simp only [jfAdd_fin]
        exact jfMin_one_inUnit _ (by positivity)
      · rw [if_neg ht]
        simp only [jfAdd_fin]
        exact jfMin_one_inUnit _ (by positivity)
    · simp only [calculateUserDocumentRelevance]
      rw [hkeq, hceq]
      by_cases hcond : userContext.healthConditions ≠ []
      · have hclen : userContext.healthConditions.length ≠ 0 := by
          simpa [List.length_eq_zero] using hcond
        obtain ⟨hdeq, hdnn⟩ := fraction_term_fin
          (userContext.healthConditions.filter
            (fun cond => strIncludes (toLowerStr doc.content)
              (toLowerStr cond))).length
          userContext.healthConditions.length hclen (2/10) (by norm_num)
        rw [if_pos hcond, hdeq]
        by_cases ht : strIncludes (toLowerStr doc.title) (toLowerStr query) = true
        · rw [if_pos ht]
          simp only [jfAdd_fin]
          exact jfMin_one_inUnit _ (by positivity)
        · rw [if_neg ht]
          simp only [jfAdd_fin]
          exact jfMin_one_inUnit _ (by positivity)
      · rw [if_neg hcond]
        by_cases ht : strIncludes (toLowerStr doc.title) (toLowerStr query) = true
        · rw [if_pos ht]
          simp only [jfAdd_fin]
          exact jfMin_one_inUnit _ (by positivity)
        · rw [if_neg ht]
          simp only [jfAdd_fin]
          exact jfMin_one_inUnit _ (by positivity)
  · intro hk
    have hmatches :
        (doc.keywords.filter
          (fun kw => strIncludes (toLowerStr kw) (toLowerStr query))).length = 0 := by
      simp [hk]
    have hknan : jfMul (jfDiv
        (.fin (((doc.keywords.filter
          (fun kw => strIncludes (toLowerStr kw) (toLowerStr query))).length : ℕ) : ℚ))
        (.fin ((doc.keywords.length : ℕ) : ℚ))) (.fin (4/10)) = JF.nan := by
      rw [hmatches, hk]
      simp [jfDiv, jfMul]
    constructor
    · simp only [calculateRelevance]
      rw [hknan, jfAdd_nan_right, jfAdd_nan_left, jfMin_nan_left]
    · simp only [calculateUserDocumentRelevance]
      rw [hknan, jfAdd_nan_right, jfAdd_nan_left]
      by_cases hcond : userContext.healthConditions ≠ []
      · rw [if_pos hcond, jfAdd_nan_left, jfMin_nan_left]
      · rw [if_neg hcond, jfMin_nan_left]

/-- C10 witness: concrete evaluations through the theorem — a one-keyword
document gets a finite score in `[0, 1]`, a zero-keyword document gets NaN. -/
theorem relevance_in_unit_interval_witness :
    jfInUnit (calculateRelevance
      ⟨none, str "d1", str "Sleep", str "Sleep well", [str "sleep"], str "s"⟩
      (str "sleep")) ∧
    calculateRelevance
      ⟨none, str "d2", str "Sleep", str "Sleep well", [], str "s"⟩
      (str "sleep") = .nan :=
  ⟨((relevance_in_unit_interval
      ⟨none, str "d1", str "Sleep", str "Sleep well", [str "sleep"], str "s"⟩
      (str "sleep") {}).1 (by decide)).1,
   ((relevance_in_unit_interval
      ⟨none, str "d2", str "Sleep", str "Sleep well", [], str "s"⟩
      (str "sleep") {}).2 rfl).1⟩

lemma alLookup_append_of_none {β : Type} (m1 m2 : List (Str × β)) (k : Str)
    (h : alLookup m1 k = none) : alLookup (m1 ++ m2) k = alLookup m2 k := by
  induction m1 with
  | nil => simp
  | cons p rest ih =>
    by_cases hp : p.1 = k
    · simp [alLookup, hp] at h
    · simp only [alLookup, hp, if_false, List.cons_append] at h ⊢
      exact ih h

lemma alLookup_alSet_self {β : Type} (m : List (Str × β)) (k : Str) (v : β) :
    alLookup (alSet m k v) k = some v := by
  unfold alSet
  by_cases h : (alLookup m k).isSome
  · simp only [h, if_true]
    induction m with
    | nil => simp [alLookup] at h
    | cons p rest ih =>
      by_cases hp : p.1 = k
      · simp [alLookup, hp]
      · simp only [alLookup, hp, if_false] at h
        simpa [alLookup, hp] using ih h
  · rw [if_neg h]
    have hnone : alLookup m k = none := by
      cases hmk : alLookup m k with
      | none => rfl
      | some w => simp [hmk] at h
    rw [alLookup_append_of_none m _ k hnone]
    simp [alLookup]

/-- C4: the cache key `searchDocuments` derives is independent of the
filters — `{q with filters := f}` yields the same key for every `f` — so
two searches differing only in their filters share one cache slot, and the
general statement is witnessed at the concrete pair (filters
`{categories: ["condition"]}` versus no filters). -/
theorem searchCacheKey_ignores_filters :
    (∀ (q : RAGQuery) (f1 f2 : Option RAGQueryFilters),
      searchCacheKey { q with filters := f1 } =
        searchCacheKey { q with filters := f2 }) ∧
    searchCacheKey { sampleQuery with
        filters := some { categories := some [str "condition"] } } =
      searchCacheKey sampleQuery :=
  ⟨fun _ _ _ => rfl, rfl⟩

lemma searchDocuments_miss_some (now elapsed : Nat) (rs : List SearchResult)
    (st : CacheMap) (q : RAGQuery)
    (hmiss : alLookup st (searchCacheKey q) = none) :
    searchDocuments now elapsed (some rs) st q =
      (let response : RAGResponse :=
        { query := q.query
          response := []
          results := rs
          totalResults := rs.length
          processingTime := elapsed
          model := embeddingModelName
          sources := (rs.map (fun r => r.document.source)).filter
            (fun s => !s.isEmpty)
          confidence := 8/10
          vectorSearchTime := (elapsed : ℚ) * (7/10)
          rerankingTime := (elapsed : ℚ) * (3/10)
          cacheHit := false }
       (response, cacheServiceSet now st (searchCacheKey q) response 3600)) := by
  simp [searchDocuments, cacheServiceGet, hmiss]

/-- C3 counterexample: the second of two identical `searchDocuments` calls,
1 second apart on an initially empty cache, returns the cached response with
identical `results` — but its cache-hit flag is `false`, not `true` as the
claim asserts: the response is replayed verbatim, including the
`cacheHit: false` recorded when it was built. -/
theorem searchDocuments_cache_hit_flag_cex :
    (searchDocuments 1000 9 none
        (searchDocuments 0 5 (some []) [] sampleQuery).2 sampleQuery).1.results =
      (searchDocuments 0 5 (some []) [] sampleQuery).1.results ∧
    (searchDocuments 1000 9 none
        (searchDocuments 0 5 (some []) [] sampleQuery).2
        sampleQuery).1.cacheHit = false := by
  decide

/-- C3 (amended): two `searchDocuments` calls with identical arguments, the
first a cache miss and the second within the 3600-second TTL, give a second
response that is the first response replayed verbatim — in particular the
`results` lists are identical — but the replayed response still carries
`cacheHit = false`; no cache-hit flag is set on the hit path. -/
theorem searchDocuments_cache_replay (t0 t1 e1 e2 : Nat) (st0 : CacheMap)
    (q : RAGQuery) (rs : List SearchResult)
    (hybrid2 : Option (List SearchResult))
    (hmiss : alLookup st0 (searchCacheKey q) = none)
    (httl : t1 - t0 < 3600 * 1000) :
    (searchDocuments t1 e2 hybrid2
        (searchDocuments t0 e1 (some rs) st0 q).2 q).1 =
      (searchDocuments t0 e1 (some rs) st0 q).1 ∧
    (searchDocuments t1 e2 hybrid2
        (searchDocuments t0 e1 (some rs) st0 q).2 q).1.results =
      (searchDocuments t0 e1 (some rs) st0 q).1.results ∧
    (searchDocuments t1 e2 hybrid2
        (searchDocuments t0 e1 (some rs) st0 q).2 q).1.cacheHit = false := by
  rw [searchDocuments_miss_some t0 e1 rs st0 q hmiss]
  have hlook : alLookup
      (cacheServiceSet t0 st0 (searchCacheKey q)
        { query := q.query
          response := []
          results := rs
          totalResults := rs.length
          processingTime := e1
          model := embeddingModelName
          sources := (rs.map (fun r => r.document.source)).filter
            (fun s => !s.isEmpty)
          confidence := 8/10
          vectorSearchTime := (e1 : ℚ) * (7/10)
          rerankingTime := (e1 : ℚ) * (3/10)
          cacheHit := false } 3600)
      (searchCacheKey q) = some
        ⟨{ query := q.query
           response := []
           results := rs
           totalResults := rs.length
           processingTime := e1
           model := embeddingModelName
           sources := (rs.map (fun r => r.document.source)).filter
             (fun s => !s.isEmpty)
           confidence := 8/10
           vectorSearchTime := (e1 : ℚ) * (7/10)
           rerankingTime := (e1 : ℚ) * (3/10)
           cacheHit := false }, t0, 3600⟩ :=
    alLookup_alSet_self st0 (searchCacheKey q) _
  refine ⟨?_, ?_, ?_⟩ <;>
    simp [searchDocuments, cacheServiceGet, hlook, httl]

/-- C3 witness: the amended/replay theorem evaluated on the counterexample
scenario (empty cache, identical query, calls 1 second apart). -/
theorem searchDocuments_cache_replay_witness :
    (searchDocuments 1000 9 none
        (searchDocuments 0 5 (some []) [] sampleQuery).2 sampleQuery).1 =
      (searchDocuments 0 5 (some []) [] sampleQuery).1 :=
  (searchDocuments_cache_replay 0 1000 5 9 [] sampleQuery [] none rfl
    (by norm_num)).1

/-- C5 counterexample: a `searchDocuments` call on an empty cache whose
hybrid search completes with zero results returns `confidence = 0.8` and
`model = "mistral-embed"` — not the `0.0` / `"fallback"` pair the claim
requires for an empty, non-cached result. -/
theorem searchDocuments_empty_confidence_cex :
    (searchDocuments 0 7 (some []) [] sampleQuery).1.totalResults = 0 ∧
    (searchDocuments 0 7 (some []) [] sampleQuery).1.confidence ≠ 0 ∧
    (searchDocuments 0 7 (some []) [] sampleQuery).1.model ≠ str "fallback" := by
  have hmiss : alLookup ([] : CacheMap) (searchCacheKey sampleQuery) = none := rfl
  refine ⟨?_, ?_, ?_⟩ <;> simp [searchDocuments, cacheServiceGet, hmiss]
  decide

/-- C5 (amended): on a cache miss, every `searchDocuments` call whose hybrid
search completes — with any result list, including the empty one — returns
the fixed confidence 0.8 and the embedding model label; the
confidence-0.0 / "fallback" response is produced only when an exception
reaches the catch block (modelled by `hybrid = none`). -/
theorem searchDocuments_confidence_constant (now elapsed : Nat) (st : CacheMap)
    (q : RAGQuery) (hmiss : alLookup st (searchCacheKey q) = none) :
    (∀ rs : List SearchResult,
      (searchDocuments now elapsed (some rs) st q).1.confidence = 8/10 ∧
      (searchDocuments now elapsed (some rs) st q).1.model =
        embeddingModelName) ∧
    ((searchDocuments now elapsed none st q).1.confidence = 0 ∧
     (searchDocuments now elapsed none st q).1.model = str "fallback") := by
  refine ⟨fun rs => ?_, ?_⟩ <;> simp [searchDocuments, cacheServiceGet, hmiss]

/-- C5 witness: the fixed-confidence theorem evaluated at the empty result
list on an empty cache. -/
theorem searchDocuments_confidence_constant_witness :
    (searchDocuments 0 7 (some []) [] sampleQuery).1.confidence = 8/10 ∧
    (searchDocuments 0 7 (some []) [] sampleQuery).1.model =
      embeddingModelName :=
  (searchDocuments_confidence_constant 0 7 [] sampleQuery rfl).1 []

/-- C6: a query whose lowercased text contains one of the stop keywords makes
`generateContextualResponse` return the fixed stop acknowledgement with zero
provider calls and the store bit-identical — in particular every session's
stored message count is unchanged (the query is never appended). -/
theorem generateContextualResponse_stop (now : Nat) (store : ContextStore)
    (query userId : Str) (conversationId : Option Str)
    (provider : Option MistralResp) (h : isStopSignal query = true) :
    generateContextualResponse now store query userId conversationId provider =
      { text := stopAckMessage, store := store, providerCalls := 0 } ∧
    ∀ sid : Str,
      (findContext (generateContextualResponse now store query userId
          conversationId provider).store userId sid).map
          (fun c => c.messages.length) =
        (findContext store userId sid).map (fun c => c.messages.length) := by
  have hgen : generateContextualResponse now store query userId conversationId
      provider = { text := stopAckMessage, store := store, providerCalls := 0 } := by
    simp [generateContextualResponse, h]
  exact ⟨hgen, fun sid => by rw [hgen]⟩

/-- C6 witness: the stop theorem at the concrete query `"please stop"`. -/
theorem generateContextualResponse_stop_witness :
    generateContextualResponse 3 [] (str "please stop") (str "u1")
        (some (str "s1")) none =
      { text := stopAckMessage, store := [], providerCalls := 0 } :=
  (generateContextualResponse_stop 3 [] (str "please stop") (str "u1")
    (some (str "s1")) none (by decide)).1

/-- C7: after a successful generation on a fresh session (query "hello
there", provider replying with one choice), the persisted ConversationContext
holds 2 messages but its `messageCount` is still 0: the live path appends
messages and persists through `saveConversationContext`, which never updates
`messageCount` (only the unused `updateConversationContext` does), so the
invariant `messageCount = messages.length` fails after the mutating
operation. -/
theorem messageCount_not_updated_on_save :
    (findContext
        (generateContextualResponse 5 [] (str "hello there") (str "u1")
          (some (str "s1"))
          (some ⟨[str "Here are some wellness tips"]⟩)).store
        (str "u1") (str "s1")).map
      (fun c => (c.messages.length, c.messageCount)) = some (2, 0) := by
  decide

lemma not_mem_removeGeneration (reg : GenRegistry) (g : Str) :
    g ∉ removeGeneration reg g := by
  intro hmem
  have := (List.mem_filter.mp hmem).2
  simp at this

/-- C8: starting a generation `g` registers it; cancelling it before the
provider responds succeeds, makes the call resolve to the `cancelled`
outcome — a constructor distinct from the `null` provider-failure result —
and leaves `g` out of the registry; and the registry entry is likewise
removed on natural completion and on a provider error. -/
theorem cancelGeneration_lifecycle (g : Str) (r : MistralResp) :
    (cancelGeneration (registerGeneration [] (some g)) g).1 = true ∧
    (finishMistralCall
        (cancelGeneration (registerGeneration [] (some g)) g).2
        (some g) .aborted).1 = ApiResult.cancelled ∧
    ApiResult.cancelled ≠ ApiResult.nullResult ∧
    g ∉ (finishMistralCall
        (cancelGeneration (registerGeneration [] (some g)) g).2
        (some g) .aborted).2 ∧
    g ∉ (finishMistralCall (registerGeneration [] (some g)) (some g)
        (.success r)).2 ∧
    g ∉ (finishMistralCall (registerGeneration [] (some g)) (some g)
        .httpError).2 := by
  refine ⟨?_, ?_, by simp, ?_, ?_, ?_⟩
  · simp [cancelGeneration, registerGeneration]
  · simp [finishMistralCall]
  · simp [finishMistralCall]
    exact fun h => absurd h (not_mem_removeGeneration _ g)
  · simp only [finishMistralCall]
    split <;> exact not_mem_removeGeneration _ g
  · simp only [finishMistralCall]
    exact not_mem_removeGeneration _ g

lemma alLookup_append {β : Type} (m1 m2 : List (Str × β)) (k : Str) :
    alLookup (m1 ++ m2) k =
      match alLookup m1 k with
      | some v => some v
      | none => alLookup m2 k := by
  induction m1 with
  | nil => simp [alLookup]
  | cons p rest ih =>
    by_cases hp : p.1 = k
    · simp [alLookup, hp]
    · simpa [alLookup, hp] using ih

lemma alLookup_update_ne {β : Type} (m : List (Str × β)) (k k' : Str) (v : β)
    (h : k' ≠ k) :
    alLookup (m.map (fun p => if p.1 = k then (p.1, v) else p)) k' =
      alLookup m k' := by
  induction m with
  | nil => simp
  | cons p rest ih =>
    by_cases hp : p.1 = k
    · have hkk' : ¬ (k = k') := fun he => h he.symm
      simp [alLookup, hp, hkk', ih]
    · by_cases hp' : p.1 = k'
      · simp [alLookup, hp, hp', h]
      · simp [alLookup, hp, hp', ih]

lemma alLookup_alSet_ne {β : Type} (m : List (Str × β)) (k k' : Str) (v : β)
    (h : k' ≠ k) : alLookup (alSet m k v) k' = alLookup m k' := by
  unfold alSet
  by_cases hs : (alLookup m k).isSome
  · rw [if_pos hs]
    exact alLookup_update_ne m k k' v h
  · rw [if_neg hs, alLookup_append]
    have hone : ¬ ((k, v).1 = k') := fun he => h he.symm
    simp only [alLookup, hone, if_false]
    cases alLookup m k' <;> rfl

lemma alLookup_eq_none_iff {β : Type} (m : List (Str × β)) (k : Str) :
    alLookup m k = none ↔ k ∉ alKeys m := by
  induction m with
  | nil =>
    exact ⟨fun _ hmem => by simp [alKeys] at hmem, fun _ => rfl⟩
  | cons p rest ih =>
    by_cases hp : p.1 = k
    · constructor
      · intro hnone
        simp only [alLookup, hp, if_true] at hnone
        exact absurd hnone (by simp)
      · intro hmem
        exfalso
        apply hmem
        simp only [alKeys, List.map_cons]
        exact List.mem_cons.mpr (Or.inl hp.symm)
    · constructor
      · intro hnone hmem
        simp only [alLookup, hp, if_false] at hnone
        simp only [alKeys, List.map_cons] at hmem
        rcases List.mem_cons.mp hmem with he | hm
        · exact hp he.symm
        · exact (ih.mp hnone) hm
      · intro hmem
        simp only [alLookup, hp, if_false]
        apply ih.mpr
        intro hm
        apply hmem
        simp only [alKeys, List.map_cons]
        exact List.mem_cons.mpr (Or.inr hm)

lemma alKeys_alSet {β : Type} (m : List (Str × β)) (k : Str) (v : β) :
    alKeys (alSet m k v) =
      if (alLookup m k).isSome then alKeys m else alKeys m ++ [k] := by
  unfold alSet
  by_cases hs : (alLookup m k).isSome
  · rw [if_pos hs, if_pos hs]
    simp only [alKeys, List.map_map]
    apply List.map_congr_left
    intro p _
    simp only [Function.comp_apply]
    by_cases hp : p.1 = k
    · rw [if_pos hp]
    · rw [if_neg hp]
  · rw [if_neg hs, if_neg hs]
    simp only [alKeys, List.map_append, List.map_cons, List.map_nil]

lemma alKeys_alSet_nodup {β : Type} (m : List (Str × β)) (k : Str) (v : β)
    (h : (alKeys m).Nodup) : (alKeys (alSet m k v)).Nodup := by
  rw [alKeys_alSet]
  by_cases hs : (alLookup m k).isSome
  · rwa [if_pos hs]
  · rw [if_neg hs]
    have hk : k ∉ alKeys m := by
      rw [← alLookup_eq_none_iff]
      cases hmk : alLookup m k with
      | none => rfl
      | some w => simp [hmk] at hs
    simp [List.nodup_append, h, hk]

lemma alLookup_mem {β : Type} (m : List (Str × β)) (k : Str) (v : β)
    (h : alLookup m k = some v) : (k, v) ∈ m := by
  induction m with
  | nil => simp [alLookup] at h
  | cons p rest ih =>
    by_cases hp : p.1 = k
    · simp only [alLookup, hp, if_true, Option.some.injEq] at h
      have hpv : p = (k, v) := by
        cases p
        simp only [Prod.mk.injEq]
        exact ⟨hp, h⟩
      exact List.mem_cons.mpr (Or.inl hpv.symm)
    · simp only [alLookup, hp, if_false] at h
      exact List.mem_cons_of_mem p (ih h)

lemma alSet_forall {β : Type} (P : Str × β → Prop) (m : List (Str × β))
    (k : Str) (v : β) (hm : ∀ p ∈ m, P p) (hv : P (k, v)) :
    ∀ p ∈ alSet m k v, P p := by
  unfold alSet
  by_cases hs : (alLookup m k).isSome
  · rw [if_pos hs]
    intro p hp
    rcases List.mem_map.mp hp with ⟨q, hq, hrfl⟩
    by_cases hqk : q.1 = k
    · rw [← hrfl, if_pos hqk, hqk]
      exact hv
    · rw [← hrfl, if_neg hqk]
      exact hm q hq
  · rw [if_neg hs]
    intro p hp
    rcases List.mem_append.mp hp with hl | hr
    · exact hm p hl
    · rcases List.mem_cons.mp hr with he | hn
      · rw [he]; exact hv
      · simp at hn

lemma foldl_alSet_fresh (now : Nat) :
    ∀ (vec : List SearchResult) (m : List (Str × SearchResult)),
      ((vec.map (docKey now)).Nodup) →
      (∀ r ∈ vec, alLookup m (docKey now r) = none) →
      vec.foldl (fun m r => alSet m (docKey now r) r) m =
        m ++ vec.map (fun r => (docKey now r, r)) := by
  intro vec
  induction vec with
  | nil => intro m _ _; simp
  | cons r rest ih =>
    intro m hnd hfresh
    obtain ⟨hknotin, hndr⟩ := List.nodup_cons.mp (by simpa only [List.map_cons] using hnd)
    have hmr : alLookup m (docKey now r) = none := hfresh r (by simp)
    have hset : alSet m (docKey now r) r = m ++ [(docKey now r, r)] := by
      unfold alSet
      rw [if_neg (by simp [hmr])]
    simp only [List.foldl_cons, hset]
    rw [ih (m ++ [(docKey now r, r)]) hndr ?_]
    · simp
    · intro r' hr'
      rw [alLookup_append, hfresh r' (by simp [hr'])]
      have hne : ¬ ((docKey now r, r).1 = docKey now r') := by
        intro he
        apply hknotin
        have he' : docKey now r = docKey now r' := he
        rw [he']
        exact List.mem_map.mpr ⟨r', hr', rfl⟩
      simp only [alLookup, hne, if_false]

lemma vectorPhase_eq (now : Nat) (vec : List SearchResult)
    (h : (vec.map (docKey now)).Nodup) :
    vectorPhase now vec = vec.map (fun r => (docKey now r, r)) := by
  have := foldl_alSet_fresh now vec [] h (fun _ _ => rfl)
  simpa [vectorPhase] using this

lemma alLookup_map_pair (now : Nat) (l : List SearchResult) (k : Str) :
    alLookup (l.map (fun r => (docKey now r, r))) k = lookupByKey now l k := by
  induction l with
  | nil => rfl
  | cons r rest ih =>
    by_cases h : docKey now r = k <;>
      simp [alLookup, lookupByKey, List.find?_cons, h, ih]

lemma lookupByKey_of_mem (now : Nat) (l : List SearchResult)
    (hnd : (l.map (docKey now)).Nodup) (r : SearchResult) (hr : r ∈ l)
    (k : Str) (hk : docKey now r = k) : lookupByKey now l k = some r := by
  induction l with
  | nil => simp at hr
  | cons w rest ih =>
    obtain ⟨hwnotin, hndr⟩ := List.nodup_cons.mp (by simpa only [List.map_cons] using hnd)
    by_cases hw : docKey now w = k
    · rcases List.mem_cons.mp hr with he | hm
      · simp only [lookupByKey]
        rw [List.find?_cons_of_pos _ (by simp [hw]), he]
      · exfalso
        apply hwnotin
        rw [hw, ← hk]
        exact List.mem_map.mpr ⟨r, hm, rfl⟩
    · have hrw : r ≠ w := fun he => hw (he ▸ hk)
      have hm : r ∈ rest := by
        rcases List.mem_cons.mp hr with he | hm
        · exact absurd he hrw
        · exact hm
      simp only [lookupByKey]
      rw [List.find?_cons_of_neg _ (by simp [hw])]
      exact ih hndr hm

lemma lookupByKey_eq_none (now : Nat) (l : List SearchResult) (k : Str)
    (h : ∀ r ∈ l, docKey now r ≠ k) : lookupByKey now l k = none :=
  List.find?_eq_none.mpr (fun r hr => by simp [h r hr])

lemma textPhase_lookup (now : Nat) :
    ∀ (text : List SearchResult) (m : List (Str × SearchResult)) (k : Str),
      ((text.map (docKey now)).Nodup) →
      alLookup (textPhase now m text) k =
        match alLookup m k, lookupByKey now text k with
        | some ex, some t => some (mergeScores ex t)
        | some ex, none => some ex
        | none, some t => some t
        | none, none => none := by
  intro text
  induction text with
  | nil =>
    intro m k _
    simp only [textPhase, List.foldl_nil, lookupByKey, List.find?_nil]
    cases alLookup m k <;> rfl
  | cons t rest ih =>
    intro m k hnd
    obtain ⟨hknotin, hndr⟩ := List.nodup_cons.mp (by simpa only [List.map_cons] using hnd)
    simp only [textPhase, List.foldl_cons]
    have hstep := ih
      (match alLookup m (docKey now t) with
       | some existing => alSet m (docKey now t) (mergeScores existing t)
       | none => alSet m (docKey now t) t) k hndr
    simp only [textPhase] at hstep
    rw [hstep]
    by_cases hk : docKey now t = k
    · have htext : lookupByKey now (t :: rest) k = some t := by
        simp only [lookupByKey]
        exact List.find?_cons_of_pos _ (by simp [hk])
      have hrest : lookupByKey now rest k = none := by
        apply lookupByKey_eq_none
        intro r hr he
        apply hknotin
        rw [hk, ← he]
        exact List.mem_map.mpr ⟨r, hr, rfl⟩
      rw [htext, hrest]
      cases hm : alLookup m (docKey now t) with
      | some ex =>
        have hself : alLookup (alSet m (docKey now t) (mergeScores ex t)) k =
            some (mergeScores ex t) := by
          rw [← hk]
          exact alLookup_alSet_self m (docKey now t) (mergeScores ex t)
        rw [hself]
        have hmk : alLookup m k = some ex := by rw [← hk]; exact hm
        rw [hmk]
      | none =>
        have hself : alLookup (alSet m (docKey now t) t) k = some t := by
          rw [← hk]
          exact alLookup_alSet_self m (docKey now t) t
        rw [hself]
        have hmk : alLookup m k = none := by rw [← hk]; exact hm
        rw [hmk]
    · have htext : lookupByKey now (t :: rest) k = lookupByKey now rest k := by
        simp only [lookupByKey]
        exact List.find?_cons_of_neg _ (by simp [hk])
      rw [htext]
      cases hm : alLookup m (docKey now t) with
      | some ex =>
        rw [alLookup_alSet_ne m (docKey now t) k (mergeScores ex t)
          (fun he => hk he.symm)]
      | none =>
        rw [alLookup_alSet_ne m (docKey now t) k t (fun he => hk he.symm)]

lemma textPhase_keys_nodup (now : Nat) :
    ∀ (text : List SearchResult) (m : List (Str × SearchResult)),
      (alKeys m).Nodup → (alKeys (textPhase now m text)).Nodup := by
  intro text
  induction text with
  | nil => intro m hm; exact hm
  | cons t rest ih =>
    intro m hm
    simp only [textPhase, List.foldl_cons]
    have hstep : (alKeys
        (match alLookup m (docKey now t) with
         | some existing => alSet m (docKey now t) (mergeScores existing t)
         | none => alSet m (docKey now t) t)).Nodup := by
      cases alLookup m (docKey now t) <;>
        exact alKeys_alSet_nodup _ _ _ hm
    exact ih _ hstep

lemma textPhase_inv (now : Nat) :
    ∀ (text : List SearchResult) (m : List (Str × SearchResult)),
      (∀ p ∈ m, p.1 = docKey now p.2) →
      ∀ p ∈ textPhase now m text, p.1 = docKey now p.2 := by
  intro text
  induction text with
  | nil => intro m hm; exact hm
  | cons t rest ih =>
    intro m hm
    simp only [textPhase, List.foldl_cons]
    have hstep : ∀ p ∈
        (match alLookup m (docKey now t) with
         | some existing => alSet m (docKey now t) (mergeScores existing t)
         | none => alSet m (docKey now t) t),
        p.1 = docKey now p.2 := by
      cases hlk : alLookup m (docKey now t) with
      | some ex =>
        apply alSet_forall _ m _ _ hm
        have hkey : docKey now t = docKey now ex :=
          hm (docKey now t, ex) (alLookup_mem m _ ex hlk)
        have hdoc : docKey now (mergeScores ex t) = docKey now ex := rfl
        simpa [hdoc] using hkey
      | none =>
        exact alSet_forall _ m _ _ hm rfl
    exact ih _ hstep

lemma map_docKey_values (now : Nat) (m : List (Str × SearchResult))
    (hinv : ∀ p ∈ m, p.1 = docKey now p.2) :
    (m.map (fun p => p.2)).map (docKey now) = alKeys m := by
  simp only [List.map_map, alKeys]
  apply List.map_congr_left
  intro p hp
  simp only [Function.comp_apply]
  exact (hinv p hp).symm

lemma rerankLE_trans : ∀ (a b c : SearchResult),
    rerankLE a b = true → rerankLE b c = true → rerankLE a c = true := by
  intro a b c hab hbc
  simp only [rerankLE, decide_eq_true_eq] at *
  exact le_trans hbc hab

lemma rerankLE_total : ∀ (a b : SearchResult),
    (rerankLE a b || rerankLE b a) = true := by
  intro a b
  simp only [rerankLE, Bool.or_eq_true, decide_eq_true_eq]
  exact le_total (combinedScore b) (combinedScore a)

lemma combined_lookup (now : Nat) (vec text : List SearchResult) (k : Str)
    (hv : (vec.map (docKey now)).Nodup) (ht : (text.map (docKey now)).Nodup) :
    alLookup (textPhase now (vectorPhase now vec) text) k =
      match lookupByKey now vec k, lookupByKey now text k with
      | some v, some t => some (mergeScores v t)
      | some v, none => some v
      | none, some t => some t
      | none, none => none := by
  rw [textPhase_lookup now text _ k ht, vectorPhase_eq now vec hv,
    alLookup_map_pair]

lemma mem_combineAndRerank_of_lookup (now : Nat)
    (vec text : List SearchResult) (x : SearchResult) (k : Str)
    (h : alLookup (textPhase now (vectorPhase now vec) text) k = some x) :
    x ∈ combineAndRerank now vec text := by
  have hmem : (k, x) ∈ textPhase now (vectorPhase now vec) text :=
    alLookup_mem _ _ _ h
  have hval : x ∈ (textPhase now (vectorPhase now vec) text).map
      (fun p => p.2) :=
    List.mem_map.mpr ⟨(k, x), hmem, rfl⟩
  exact ((List.mergeSort_perm _ rerankLE).mem_iff).mpr hval

/-- C1: for the hybrid-search merge with duplicate-free document keys in
each input list, the merged list of `combineAndRerank` contains each
document key at most once; a document in both lists appears as the vector
entry with its similarity score replaced by the arithmetic mean of the two
input scores and its relevance replaced by the maximum of the two input
relevances; a document in exactly one list is kept unchanged; the merged
list is sorted in descending order of `0.7*score + 0.3*relevance`; and the
hybrid search returns its `limit`-prefix. -/
theorem hybridSearch_merge_correct (now : Nat) (vec text : List SearchResult)
    (limit : Nat) (hv : (vec.map (docKey now)).Nodup)
    (ht : (text.map (docKey now)).Nodup) :
    ((combineAndRerank now vec text).map (docKey now)).Nodup ∧
    (∀ v ∈ vec, ∀ t ∈ text, docKey now v = docKey now t →
      { v with score := (v.score + t.score) / 2,
               relevance := max v.relevance t.relevance } ∈
        combineAndRerank now vec text) ∧
    (∀ v ∈ vec, (∀ t ∈ text, docKey now t ≠ docKey now v) →
      v ∈ combineAndRerank now vec text) ∧
    (∀ t ∈ text, (∀ v ∈ vec, docKey now v ≠ docKey now t) →
      t ∈ combineAndRerank now vec text) ∧
    (combineAndRerank now vec text).Pairwise
      (fun a b => combinedScore b ≤ combinedScore a) ∧
    hybridSearchMerge now vec text limit =
      (combineAndRerank now vec text).take limit := by
  have hinv : ∀ p ∈ textPhase now (vectorPhase now vec) text,
      p.1 = docKey now p.2 := by
    apply textPhase_inv
    rw [vectorPhase_eq now vec hv]
    intro p hp
    rcases List.mem_map.mp hp with ⟨r, _, hrfl⟩
    rw [← hrfl]
  have hkeys : (alKeys (textPhase now (vectorPhase now vec) text)).Nodup := by
    apply textPhase_keys_nodup
    rw [vectorPhase_eq now vec hv]
    have hkv : alKeys (vec.map fun r => (docKey now r, r)) =
        vec.map (docKey now) := by
      simp [alKeys, List.map_map, Function.comp]
    rw [hkv]
    exact hv
  refine ⟨?_, ?_, ?_, ?_, ?_, rfl⟩
  · have hperm : (combineAndRerank now vec text).Perm
        ((textPhase now (vectorPhase now vec) text).map (fun p => p.2)) :=
      List.mergeSort_perm _ _
    have hpk := hperm.map (docKey now)
    have hvals := map_docKey_values now _ hinv
    exact (hpk.symm).nodup (by rw [hvals]; exact hkeys)
  · intro v hv' t ht' heq
    have hlv : lookupByKey now vec (docKey now v) = some v :=
      lookupByKey_of_mem now vec hv v hv' _ rfl
    have hlt : lookupByKey now text (docKey now v) = some t :=
      lookupByKey_of_mem now text ht t ht' _ heq.symm
    have hlook := combined_lookup now vec text (docKey now v) hv ht
    rw [hlv, hlt] at hlook
    exact mem_combineAndRerank_of_lookup now vec text _ _ hlook
  · intro v hv' hnone
    have hlv : lookupByKey now vec (docKey now v) = some v :=
      lookupByKey_of_mem now vec hv v hv' _ rfl
    have hlt : lookupByKey now text (docKey now v) = none :=
      lookupByKey_eq_none now text _ hnone
    have hlook := combined_lookup now vec text (docKey now v) hv ht
    rw [hlv, hlt] at hlook
    exact mem_combineAndRerank_of_lookup now vec text _ _ hlook
  · intro t ht' hnone
    have hlv : lookupByKey now vec (docKey now t) = none :=
      lookupByKey_eq_none now vec _ hnone
    have hlt : lookupByKey now text (docKey now t) = some t :=
      lookupByKey_of_mem now text ht t ht' _ rfl
    have hlook := combined_lookup now vec text (docKey now t) hv ht
    rw [hlv, hlt] at hlook
    exact mem_combineAndRerank_of_lookup now vec text _ _ hlook
  · have hsorted := List.sorted_mergeSort rerankLE_trans rerankLE_total
      ((textPhase now (vectorPhase now vec) text).map (fun p => p.2))
    exact hsorted.imp (fun h => by
      simpa [rerankLE, decide_eq_true_eq] using h)

/-- C1 witness: the specification scenario — a document in both lists with
vector score 0.9 and text score 0.6 appears in the merge with the averaged
score and maxed relevance. -/
theorem hybridSearch_merge_correct_witness :
    { vecResultA with
        score := (vecResultA.score + textResultA.score) / 2,
        relevance := max vecResultA.relevance textResultA.relevance } ∈
      combineAndRerank 0 [vecResultA] [textResultA] :=
  (hybridSearch_merge_correct 0 [vecResultA] [textResultA] 10
      (by decide) (by decide)).2.1 vecResultA
    (List.mem_singleton.mpr rfl) textResultA (List.mem_singleton.mpr rfl)
    (by decide)

end WellnessScribe
